import Mathlib

/-!
Verification development for the currency chat-bot plugin
(`plugins/currency_plugin.py`).

The plugin's core is embedded shallowly:

* the regular-expression patterns of `_parse_conversion_request` are
  embedded as lists of `Item`s run by a backtracking matcher
  (`matchSeq` / `searchFrom`) with Python `re.search` semantics:
  leftmost match, ordered alternation, greedy repetition with
  backtracking;
* `_normalize_currency`, `_parse_conversion_request`, the conversion
  core of `_process_conversion`, `_get_cbr_rates` and `_get_mock_rates`
  become Lean functions; Python floats are modelled as exact rationals,
  dicts as association lists with dict-style insertion;
* the network, the clock and the mutable cache slot of
  `_get_cbr_rates` are made explicit: the function takes the cache
  contents, the current timestamp, the outcome of the HTTP fetch and
  the current date string, and returns the produced table, the new
  cache contents and whether a network access was performed.  A fetch
  outcome is either `failure` (non-success status, timeout, connection
  error, malformed body — all of which the source maps to the same
  fallback path) or `success payload` with a typed payload; the
  `ZeroDivisionError` raised while parsing an entry with
  `Previous = 0` is modelled by `parseCbrPayload` returning `none`,
  which the caller maps to the fallback path exactly as the source's
  blanket `except Exception` does.
-/

/-- Whitespace characters, as matched by the patterns and by `str.strip()`. -/
def wsChar (c : Char) : Bool :=
  c = ' ' || c = '\t' || c = '\n' || c = '\x0d' || c = '\x0b' || c = '\x0c'

/-- ASCII decimal digit. -/
def digitChar (c : Char) : Bool :=
  '0' ≤ c && c ≤ '9'

/-- The character class `[a-zA-Z]`. -/
def latinChar (c : Char) : Bool :=
  ('a' ≤ c && c ≤ 'z') || ('A' ≤ c && c ≤ 'Z')

/-- The character class `[a-zA-Zа-яА-Я]`. -/
def alnumTokenChar (c : Char) : Bool :=
  latinChar c || ('а' ≤ c && c ≤ 'я') || ('А' ≤ c && c ≤ 'Я')

/-- Python `str.lower()` on the Latin and Cyrillic letters this plugin uses. -/
def lowerChar (c : Char) : Char :=
  if 'A' ≤ c && c ≤ 'Z' then Char.ofNat (c.toNat + 32)
  else if 'А' ≤ c && c ≤ 'Я' then Char.ofNat (c.toNat + 32)
  else if c = 'Ё' then 'ё'
  else c

/-- Python `str.upper()` on the Latin and Cyrillic letters this plugin uses. -/
def upperChar (c : Char) : Char :=
  if 'a' ≤ c && c ≤ 'z' then Char.ofNat (c.toNat - 32)
  else if 'а' ≤ c && c ≤ 'я' then Char.ofNat (c.toNat - 32)
  else if c = 'ё' then 'Ё'
  else c

/-- `str.lower()` lifted to strings. -/
def lowerString (s : String) : String :=
  ⟨s.data.map lowerChar⟩

/-- `str.upper()` lifted to strings. -/
def upperString (s : String) : String :=
  ⟨s.data.map upperChar⟩

/-- Python `str.strip()`: drop leading and trailing whitespace. -/
def stripString (s : String) : String :=
  ⟨((s.data.dropWhile wsChar).reverse.dropWhile wsChar).reverse⟩

/-- Python slicing `s[:n]`. -/
def strTake (n : Nat) (s : String) : String :=
  ⟨s.data.take n⟩

/-- Match a literal character sequence at the head of the input,
returning the remainder. -/
def dropLit : List Char → List Char → Option (List Char)
  | [], s => some s
  | _ :: _, [] => none
  | c :: cs, d :: ds => if c = d then dropLit cs ds else none

/-- Length of the maximal head run of characters satisfying `p`. -/
def runLen (p : Char → Bool) : List Char → Nat
  | [] => 0
  | c :: cs => if p c then runLen p cs + 1 else 0

/-- `[hi, hi-1, ..., lo]`: the repetition counts a greedy quantifier
tries, longest first. -/
def descRange (hi lo : Nat) : List Nat :=
  ((List.range (hi + 1)).reverse).filter (fun n => decide (lo ≤ n))

/-- One element of an embedded regular expression.  Exactly the
constructs used by the source patterns are covered:

* `alts ss` — an ordered non-capturing alternation of literals,
  `(?:s₁|s₂|...)`;
* `ws lo` — `\s*` (`lo = 0`) or `\s+` (`lo = 1`);
* `grpNum` — the capturing amount group `(\d+(?:[.,]\d+)?)`;
* `grpCls p lo hi?` — a capturing greedy class repetition such as
  `([a-zA-Z]{3})` or `([a-zA-Zа-яА-Я]{2,})`. -/
inductive Item where
  | alts (ss : List String)
  | ws (lo : Nat)
  | grpNum
  | grpCls (p : Char → Bool) (lo : Nat) (hi : Option Nat)

/-- The ways one `Item` can match at the head of the input, in the
priority order Python's backtracking engine tries them: each entry is
an optional captured string and the remaining input. -/
def itemAlts : Item → List Char → List (Option String × List Char)
  | .alts ss, s =>
      ss.filterMap (fun a => (dropLit a.data s).map (fun r => (none, r)))
  | .ws lo, s =>
      (descRange (runLen wsChar s) lo).map (fun n => (none, s.drop n))
  | .grpCls p lo hi, s =>
      let m := runLen p s
      let m := match hi with | some h => min m h | none => m
      (descRange m lo).map (fun n => (some ⟨s.take n⟩, s.drop n))
  | .grpNum, s =>
      let d := runLen digitChar s
      ((descRange d 1).map (fun n =>
        let intp := s.take n
        let rest := s.drop n
        let fracOpts :=
          match rest with
          | c :: rest2 =>
            if c = '.' || c = ',' then
              (descRange (runLen digitChar rest2) 1).map
                (fun k => (some ⟨intp ++ [c] ++ rest2.take k⟩, rest2.drop k))
            else []
          | [] => []
        fracOpts ++ [(some ⟨intp⟩, rest)])).flatten

/-- Match a sequence of items at the start of the input, with
backtracking; returns the captured groups of the first (highest
priority) full match. -/
def matchSeq : List Item → List Char → Option (List String)
  | [], _ => some []
  | it :: rest, s =>
      (itemAlts it s).findSome? (fun cs =>
        (matchSeq rest cs.2).map (fun caps =>
          match cs.1 with
          | some cap => cap :: caps
          | none => caps))

/-- `re.search`: try the pattern at every start position, leftmost
first; returns the captured groups of the first match. -/
def searchFrom (its : List Item) : List Char → Option (List String)
  | [] => matchSeq its []
  | c :: s2 =>
      match matchSeq its (c :: s2) with
      | some caps => some caps
      | none => searchFrom its s2

/-- `re.search` on a string. -/
def reSearch (its : List Item) (s : String) : Option (List String) :=
  searchFrom its s.data

/-- Value of a digit sequence, as in Python `int`/`float` parsing. -/
def digitsVal (cs : List Char) : Nat :=
  cs.foldl (fun n c => n * 10 + (c.toNat - '0'.toNat)) 0

/-- `float(group.replace(',', '.'))` on a captured amount group
(`\d+` optionally followed by a separator and `\d+`), as an exact
rational. -/
def parseAmount (s : String) : ℚ :=
  match (s.data.map (fun c => if c = ',' then '.' else c)).dropWhile (fun c => c ≠ '.') with
  | [] => (digitsVal ((s.data.map (fun c => if c = ',' then '.' else c)).takeWhile
      (fun c => c ≠ '.')) : ℚ)
  | _ :: frac => (digitsVal ((s.data.map (fun c => if c = ',' then '.' else c)).takeWhile
      (fun c => c ≠ '.')) : ℚ) + (digitsVal frac : ℚ) / (10 : ℚ) ^ frac.length

/-- First-match association-list lookup: Python dict access for the
dicts built here (whose keys are unique). -/
def alookup {α : Type} (k : String) : List (String × α) → Option α
  | [] => none
  | (k2, v) :: rest => if k = k2 then some v else alookup k rest

/-- Python dict assignment `d[k] = v`: replace the value of an existing
key in place, else append the new binding. -/
def insertEntry {α : Type} (k : String) (v : α) : List (String × α) → List (String × α)
  | [] => [(k, v)]
  | (k2, v2) :: rest =>
      if k = k2 then (k2, v) :: rest else (k2, v2) :: insertEntry k v rest

/-- The `currency_map` of `_normalize_currency`, in source order. -/
def currencyMap : List (String × String) :=
  [("рубль", "RUB"), ("руб", "RUB"), ("рублей", "RUB"), ("рубли", "RUB"), ("р", "RUB"),
   ("доллар", "USD"), ("долларов", "USD"), ("доллары", "USD"), ("доллара", "USD"),
   ("usd", "USD"), ("$", "USD"),
   ("евро", "EUR"), ("eur", "EUR"), ("€", "EUR"),
   ("юань", "CNY"), ("юаней", "CNY"), ("юаня", "CNY"), ("cny", "CNY"),
   ("фунт", "GBP"), ("фунтов", "GBP"), ("фунта", "GBP"), ("gbp", "GBP"),
   ("иена", "JPY"), ("иен", "JPY"), ("иены", "JPY"), ("yen", "JPY"), ("jpy", "JPY"),
   ("франк", "CHF"), ("франков", "CHF"), ("франка", "CHF"), ("chf", "CHF"),
   ("лира", "TRY"), ("лир", "TRY"), ("лиры", "TRY"), ("try", "TRY"),
   ("тенге", "KZT"), ("kzt", "KZT")]

/-- The keys of `self.supported_currencies`, in source order. -/
def supportedCurrencies : List String :=
  ["USD", "EUR", "GBP", "CNY", "JPY", "CHF", "TRY", "KZT", "RUB"]

/-- `_normalize_currency`: strip and lower the token, look it up in the
static map, otherwise upper-case it and accept it exactly when it is a
supported code; `none` models Python's `None` (NotFound). -/
def normalize_currency (s : String) : Option String :=
  match alookup (stripString (lowerString s)) currencyMap with
  | some c => some c
  | none =>
      if upperString (stripString (lowerString s)) ∈ supportedCurrencies
      then some (upperString (stripString (lowerString s))) else none

/-- A parsed conversion request (the dict returned by
`_parse_conversion_request`). -/
structure ConversionRequest where
  amount : ℚ
  from_currency : String
  to_currency : String
  original_text : String
deriving DecidableEq, Repr

/-- The `special_cases` list of `_parse_conversion_request`: each entry
is the pattern together with the hard-coded currency pair, in source
order. -/
def specialCases : List (List Item × String × String) :=
  [([.grpNum, .ws 0, .alts ["usd", "$", "доллар"], .ws 0, .alts ["в", "to"], .ws 0,
     .alts ["rub", "рубл"]], "USD", "RUB"),
   ([.grpNum, .ws 0, .alts ["rub", "рубл"], .ws 0, .alts ["в", "to"], .ws 0,
     .alts ["usd", "$", "доллар"]], "RUB", "USD"),
   ([.grpNum, .ws 0, .alts ["eur", "евро"], .ws 0, .alts ["в", "to"], .ws 0,
     .alts ["rub", "рубл"]], "EUR", "RUB"),
   ([.grpNum, .ws 0, .alts ["rub", "рубл"], .ws 0, .alts ["в", "to"], .ws 0,
     .alts ["eur", "евро"]], "RUB", "EUR"),
   ([.grpNum, .ws 0, .alts ["usd", "$", "доллар"], .ws 0, .alts ["в", "to"], .ws 0,
     .alts ["eur", "евро"]], "USD", "EUR"),
   ([.grpNum, .ws 0, .alts ["eur", "евро"], .ws 0, .alts ["в", "to"], .ws 0,
     .alts ["usd", "$", "доллар"]], "EUR", "USD")]

/-- The `patterns` list of `_parse_conversion_request`, in source order:
`(\d+(?:[.,]\d+)?)\s*([a-zA-Z]{3})\s+(?:to|в|->)\s+([a-zA-Z]{3})`,
`(\d+(?:[.,]\d+)?)\s*([a-zA-Zа-яА-Я]{2,})\s+(?:в|to|->)\s+([a-zA-Zа-яА-Я]{2,})`,
`(?:конвертировать|перевести)\s+(\d+(?:[.,]\d+)?)\s+([a-zA-Zа-яА-Я]{2,})\s+(?:в|to|->)\s+([a-zA-Zа-яА-Я]{2,})`. -/
def generalPatterns : List (List Item) :=
  [[.grpNum, .ws 0, .grpCls latinChar 3 (some 3), .ws 1, .alts ["to", "в", "->"], .ws 1,
    .grpCls latinChar 3 (some 3)],
   [.grpNum, .ws 0, .grpCls alnumTokenChar 2 none, .ws 1, .alts ["в", "to", "->"], .ws 1,
    .grpCls alnumTokenChar 2 none],
   [.alts ["конвертировать", "перевести"], .ws 1, .grpNum, .ws 1,
    .grpCls alnumTokenChar 2 none, .ws 1, .alts ["в", "to", "->"], .ws 1,
    .grpCls alnumTokenChar 2 none]]

/-- The special-cases loop of `_parse_conversion_request`: first
matching pattern wins and its hard-coded pair is returned. -/
def trySpecialCases : List (List Item × String × String) → List Char → String →
    Option ConversionRequest
  | [], _, _ => none
  | (pat, f, t) :: rest, s, orig =>
      match searchFrom pat s with
      | some (a :: _) => some ⟨parseAmount a, f, t, orig⟩
      | _ => trySpecialCases rest s orig

/-- The general-patterns loop of `_parse_conversion_request`: on a
match, both tokens go through `_normalize_currency`; if either fails,
the pattern is rejected and the loop continues. -/
def tryGeneralPatterns : List (List Item) → List Char → String → Option ConversionRequest
  | [], _, _ => none
  | pat :: rest, s, orig =>
      match searchFrom pat s with
      | some (a :: f :: t :: _) =>
          match normalize_currency f, normalize_currency t with
          | some fc, some tc => some ⟨parseAmount a, fc, tc, orig⟩
          | _, _ => tryGeneralPatterns rest s orig
      | _ => tryGeneralPatterns rest s orig

/-- `_parse_conversion_request`: lower-case and strip the text, try the
special cases in order, then the general patterns in order; `none`
models returning Python `None` (NoMatch). -/
def parse_conversion_request (text : String) : Option ConversionRequest :=
  match trySpecialCases specialCases (stripString (lowerString text)).data text with
  | some r => some r
  | none => tryGeneralPatterns generalPatterns (stripString (lowerString text)).data text

/-- One entry of the rate table (the per-currency dict built by
`_get_cbr_rates` / `_get_mock_rates`). -/
structure RateEntry where
  value : ℚ
  previous : ℚ
  change : ℚ
  change_percent : ℚ
deriving DecidableEq, Repr

/-- The rate table: the per-currency entries plus the `date` string the
source stores alongside them. -/
structure RateTable where
  entries : List (String × RateEntry)
  date : String
deriving DecidableEq, Repr

/-- The user-visible failure of the conversion core: the reply sent
when a requested code is missing from the table. -/
inductive ConvError where
  | currencyNotFound (code : String)
deriving DecidableEq, Repr

/-- The conversion core of `_process_conversion`: check that both codes
are keys of the table (in source order), then apply the three-branch
RUB-pivot formula with `from_rate`/`to_rate` overridden to `1.0` for
RUB. -/
def process_conversion (amount : ℚ) (fromCurr toCurr : String) (t : RateTable) :
    Except ConvError ℚ :=
  match alookup fromCurr t.entries with
  | none => .error (.currencyNotFound fromCurr)
  | some eFrom =>
      match alookup toCurr t.entries with
      | none => .error (.currencyNotFound toCurr)
      | some eTo =>
          let fromRate := if fromCurr = "RUB" then 1 else eFrom.value
          let toRate := if toCurr = "RUB" then 1 else eTo.value
          if fromCurr = "RUB" then .ok (amount / toRate)
          else if toCurr = "RUB" then .ok (amount * fromRate)
          else .ok (amount * fromRate / toRate)

/-- One entry of the remote JSON payload's `Valute` object; only
`Value` and `Previous` are consumed by the source. -/
structure ValuteInfo where
  Value : ℚ
  Previous : ℚ
deriving DecidableEq, Repr

/-- The remote JSON payload: `Date` plus the `Valute` object. -/
structure CbrPayload where
  Date : String
  Valute : List (String × ValuteInfo)
deriving DecidableEq, Repr

/-- The per-currency record `_get_cbr_rates` builds from a payload
entry. -/
def mkRateEntry (vi : ValuteInfo) : RateEntry :=
  { value := vi.Value
    previous := vi.Previous
    change := vi.Value - vi.Previous
    change_percent := (vi.Value - vi.Previous) / vi.Previous * 100 }

/-- The synthetic RUB entry `_get_cbr_rates` injects. -/
def rubEntry : RateEntry :=
  ⟨1, 1, 0, 0⟩

/-- The `for currency, rate_info in data['Valute'].items()` loop:
builds the rates dict entry by entry; an entry with `Previous = 0`
raises `ZeroDivisionError` in `change_percent`, modelled by `none`
(the whole loop is abandoned, as the exception aborts it). -/
def buildRates : List (String × ValuteInfo) → List (String × RateEntry) →
    Option (List (String × RateEntry))
  | [], acc => some acc
  | (c, vi) :: rest, acc =>
      if vi.Previous = 0 then none
      else buildRates rest (insertEntry c (mkRateEntry vi) acc)

/-- The success-path parsing of `_get_cbr_rates`: build the per-currency
entries, overwrite/insert the synthetic RUB entry, keep the first 10
characters of `Date`; `none` models the exception path (caught by the
blanket `except Exception`). -/
def parseCbrPayload (p : CbrPayload) : Option RateTable :=
  match buildRates p.Valute [] with
  | none => none
  | some rs => some ⟨insertEntry "RUB" rubEntry rs, strTake 10 p.Date⟩

/-- `_get_mock_rates`: the static fallback table; its `date` is
`datetime.now().strftime('%Y-%m-%d')`, passed in as `nowDate`. -/
def get_mock_rates (nowDate : String) : RateTable :=
  ⟨[("USD", ⟨80.7321, 80.9448, -0.2127, -0.26⟩),
    ("EUR", ⟨92.6047, 93.7804, -1.1757, -1.25⟩),
    ("CNY", ⟨11.2795, 11.3434, -0.0639, -0.56⟩),
    ("GBP", ⟨105.5976, 106.3938, -0.7962, -0.75⟩),
    ("JPY", ⟨0.513694, 0.520713, -0.007019, -1.35⟩),
    ("CHF", ⟨100.2136, 101.0295, -0.8159, -0.81⟩),
    ("TRY", ⟨1.90794, 1.91349, -0.00555, -0.29⟩),
    ("KZT", ⟨0.15543, 0.155361, 0.000069, 0.04⟩),
    ("RUB", ⟨1.0, 1.0, 0.0, 0.0⟩)],
   nowDate⟩

/-- The single cache slot under the key `"cbr_rates"`: fetch timestamp
(seconds) and the cached table. -/
structure CacheSlot where
  time : ℚ
  table : RateTable
deriving DecidableEq, Repr

/-- Outcome of the HTTP fetch of `_get_cbr_rates`.  `failure` covers
every path the source sends to the fallback before the parsing loop
runs: non-200 status, `asyncio.TimeoutError`, `aiohttp.ClientError`,
and a body without the expected `Valute`/`Date`/`Value`/`Previous`
fields (a `KeyError` caught by the blanket handler). -/
inductive FetchResult where
  | failure
  | success (payload : CbrPayload)
deriving DecidableEq, Repr

/-- What one `_get_cbr_rates` call produces: the returned table, the
cache contents after the call, and whether the network was accessed. -/
structure GetRatesResult where
  table : RateTable
  cache : Option CacheSlot
  networkAccessed : Bool
deriving DecidableEq, Repr

/-- `self.cache_timeout = 300` seconds. -/
def cacheTimeout : ℚ := 300

/-- The fetch part of `_get_cbr_rates` (everything after the cache
check): on a parsed success the table is cached at the current
timestamp and returned; on any failure the mock table is returned and
the cache is left untouched. -/
def fetchRates (cache : Option CacheSlot) (now : ℚ) (fetch : FetchResult)
    (nowDate : String) : GetRatesResult :=
  match fetch with
  | .failure => ⟨get_mock_rates nowDate, cache, true⟩
  | .success p =>
      match parseCbrPayload p with
      | some t => ⟨t, some ⟨now, t⟩, true⟩
      | none => ⟨get_mock_rates nowDate, cache, true⟩

/-- `_get_cbr_rates`: answer from the cache when the slot exists and is
younger than `cache_timeout`, otherwise fetch. -/
def get_cbr_rates (cache : Option CacheSlot) (now : ℚ) (fetch : FetchResult)
    (nowDate : String) : GetRatesResult :=
  match cache with
  | some slot =>
      if now - slot.time < cacheTimeout then ⟨slot.table, cache, false⟩
      else fetchRates cache now fetch nowDate
  | none => fetchRates cache now fetch nowDate

/-- The RateEntry invariant of the spec's data model, exact form. -/
abbrev entryInvariant (e : RateEntry) : Prop :=
  0 < e.value ∧ 0 < e.previous ∧ e.change = e.value - e.previous ∧
    e.change_percent = e.change / e.previous * 100

/-- The RateEntry invariant with `change_percent` only required up to
the half-unit of the second decimal (`1/200`), the precision to which
the static fallback table stores it. -/
abbrev entryInvariantApprox (e : RateEntry) : Prop :=
  0 < e.value ∧ 0 < e.previous ∧ e.change = e.value - e.previous ∧
    -(1 / 200) ≤ e.change_percent - e.change / e.previous * 100 ∧
    e.change_percent - e.change / e.previous * 100 ≤ 1 / 200

/-- Exactly three ASCII uppercase letters. -/
def isUpper3 (s : String) : Bool :=
  s.length = 3 && s.data.all (fun c => 'A' ≤ c && c ≤ 'Z')

/-- A sample table used to instantiate theorems: USD plus a unit RUB
entry. -/
def sampleTable : RateTable :=
  ⟨[("USD", ⟨90, 80, 10, 25 / 2⟩), ("RUB", ⟨1, 1, 0, 0⟩)], "2025-01-01"⟩

/-- A sample well-formed remote payload with one currency. -/
def samplePayload : CbrPayload :=
  ⟨"2025-01-01T11:30:00", [("USD", ⟨90, 80⟩)]⟩

/-- A payload whose first entry has `Previous = 0` and whose second
entry is well-formed. -/
def zeroPrevPayload : CbrPayload :=
  ⟨"2025-05-05T00:00:00", [("USD", ⟨90, 0⟩), ("EUR", ⟨100, 99⟩)]⟩

theorem alookup_mem {α : Type} {k : String} {v : α} :
    ∀ {l : List (String × α)}, alookup k l = some v → (k, v) ∈ l := by
  intro l h
  induction l with
  | nil => simp [alookup] at h
  | cons p rest ih =>
      obtain ⟨k2, v2⟩ := p
      by_cases hk : k = k2
      · subst hk
        simp only [alookup, eq_self_iff_true, if_true, Option.some.injEq] at h
        subst h
        exact List.mem_cons_self _ _
      · simp only [alookup, if_neg hk] at h
        exact List.mem_cons_of_mem _ (ih h)

theorem mem_insertEntry {α : Type} {k : String} {v : α} {pr : String × α} :
    ∀ {l : List (String × α)}, pr ∈ insertEntry k v l → pr = (k, v) ∨ pr ∈ l := by
  intro l h
  induction l with
  | nil =>
      simp only [insertEntry, List.mem_singleton] at h
      exact Or.inl h
  | cons p rest ih =>
      obtain ⟨k2, v2⟩ := p
      by_cases hk : k = k2
      · subst hk
        rw [insertEntry, if_pos rfl] at h
        rcases List.mem_cons.mp h with h1 | h2
        · exact Or.inl h1
        · exact Or.inr (List.mem_cons_of_mem _ h2)
      · rw [insertEntry, if_neg hk] at h
        rcases List.mem_cons.mp h with h1 | h2
        · exact Or.inr (h1 ▸ List.mem_cons_self _ _)
        · rcases ih h2 with h3 | h4
          · exact Or.inl h3
          · exact Or.inr (List.mem_cons_of_mem _ h4)

theorem alookup_insertEntry_self {α : Type} (k : String) (v : α) :
    ∀ l : List (String × α), alookup k (insertEntry k v l) = some v := by
  intro l
  induction l with
  | nil => simp [insertEntry, alookup]
  | cons p rest ih =>
      obtain ⟨k2, v2⟩ := p
      by_cases hk : k = k2
      · subst hk
        rw [insertEntry, if_pos rfl, alookup, if_pos rfl]
      · rw [insertEntry, if_neg hk, alookup, if_neg hk]
        exact ih

theorem parseAmount_nonneg (s : String) : 0 ≤ parseAmount s := by
  unfold parseAmount
  split
  · exact Nat.cast_nonneg _
  · positivity

theorem normalize_currency_mem {s c : String} (h : normalize_currency s = some c) :
    c ∈ supportedCurrencies := by
  unfold normalize_currency at h
  cases hm : alookup (stripString (lowerString s)) currencyMap with
  | some v =>
      rw [hm, Option.some.injEq] at h
      subst h
      have hv : ∀ p ∈ currencyMap, p.2 ∈ supportedCurrencies := by decide
      exact hv _ (alookup_mem hm)
  | none =>
      rw [hm] at h
      have h2 : (if upperString (stripString (lowerString s)) ∈ supportedCurrencies
          then some (upperString (stripString (lowerString s))) else none) = some c := h
      by_cases hs : upperString (stripString (lowerString s)) ∈ supportedCurrencies
      · rw [if_pos hs, Option.some.injEq] at h2
        subst h2
        exact hs
      · rw [if_neg hs] at h2
        exact absurd h2 (by simp)

theorem buildRates_sound :
    ∀ (l : List (String × ValuteInfo)) (acc rs : List (String × RateEntry)),
      buildRates l acc = some rs →
      (∀ pr ∈ l, 0 < pr.2.Value ∧ 0 < pr.2.Previous) →
      (∀ pr ∈ acc, entryInvariant pr.2) →
      ∀ pr ∈ rs, entryInvariant pr.2 := by
  intro l
  induction l with
  | nil =>
      intro acc rs h _ hacc
      simp only [buildRates, Option.some.injEq] at h
      subst h
      exact hacc
  | cons hd tl ih =>
      obtain ⟨c, vi⟩ := hd
      intro acc rs h hl hacc
      rw [buildRates] at h
      split at h
      · exact absurd h (by simp)
      · apply ih _ _ h
        · intro pr hpr
          exact hl pr (List.mem_cons_of_mem _ hpr)
        · intro pr hpr
          rcases mem_insertEntry hpr with heq | hpr2
          · subst heq
            obtain ⟨hv, hp⟩ := hl (c, vi) (List.mem_cons_self _ _)
            exact ⟨hv, hp, rfl, rfl⟩
          · exact hacc pr hpr2

theorem buildRates_zeroPrev :
    ∀ (l : List (String × ValuteInfo)) (c : String) (vi : ValuteInfo),
      (c, vi) ∈ l → vi.Previous = 0 →
      ∀ acc, buildRates l acc = none := by
  intro l
  induction l with
  | nil => simp
  | cons hd tl ih =>
      obtain ⟨c2, vi2⟩ := hd
      intro c vi hmem hz acc
      rw [buildRates]
      by_cases h2 : vi2.Previous = 0
      · rw [if_pos h2]
      · rw [if_neg h2]
        rcases List.mem_cons.mp hmem with heq | hmem2
        · have h3 : vi2 = vi := ((Prod.mk.inj heq).2).symm
          rw [h3] at h2
          exact absurd hz h2
        · exact ih c vi hmem2 hz _

theorem process_conversion_ok {a : ℚ} {f g : String} {t : RateTable} {eF eT : RateEntry}
    (hF : alookup f t.entries = some eF) (hT : alookup g t.entries = some eT) :
    process_conversion a f g t =
      .ok (if f = "RUB" then a / (if g = "RUB" then 1 else eT.value)
           else if g = "RUB" then a * eF.value
           else a * eF.value / (if g = "RUB" then 1 else eT.value)) := by
  unfold process_conversion
  rw [hF, hT]
  by_cases hf : f = "RUB" <;> by_cases hg : g = "RUB" <;> simp [hf, hg]

theorem process_conversion_errLeft {a : ℚ} {f g : String} {t : RateTable}
    (hF : alookup f t.entries = none) :
    process_conversion a f g t = .error (.currencyNotFound f) := by
  unfold process_conversion
  rw [hF]

theorem process_conversion_errRight {a : ℚ} {f g : String} {t : RateTable} {eF : RateEntry}
    (hF : alookup f t.entries = some eF) (hT : alookup g t.entries = none) :
    process_conversion a f g t = .error (.currencyNotFound g) := by
  unfold process_conversion
  rw [hF, hT]

theorem trySpecialCases_sound :
    ∀ (cs : List (List Item × String × String)) (s : List Char) (orig : String)
      (r : ConversionRequest),
      trySpecialCases cs s orig = some r →
      (∀ e ∈ cs, e.2.1 ∈ supportedCurrencies ∧ e.2.2 ∈ supportedCurrencies) →
      0 ≤ r.amount ∧ r.from_currency ∈ supportedCurrencies ∧
        r.to_currency ∈ supportedCurrencies := by
  intro cs
  induction cs with
  | nil => intro s orig r h _; simp [trySpecialCases] at h
  | cons hd rest ih =>
      obtain ⟨pat, f, t⟩ := hd
      intro s orig r h hcs
      rw [trySpecialCases] at h
      split at h
      · rw [Option.some.injEq] at h
        subst h
        obtain ⟨hf, ht⟩ := hcs (pat, f, t) (List.mem_cons_self _ _)
        exact ⟨parseAmount_nonneg _, hf, ht⟩
      · exact ih s orig r h (fun e he => hcs e (List.mem_cons_of_mem _ he))

theorem tryGeneralPatterns_sound :
    ∀ (ps : List (List Item)) (s : List Char) (orig : String) (r : ConversionRequest),
      tryGeneralPatterns ps s orig = some r →
      0 ≤ r.amount ∧ r.from_currency ∈ supportedCurrencies ∧
        r.to_currency ∈ supportedCurrencies := by
  intro ps
  induction ps with
  | nil => intro s orig r h; simp [tryGeneralPatterns] at h
  | cons pat rest ih =>
      intro s orig r h
      rw [tryGeneralPatterns] at h
      split at h
      · rename_i a f t more hsearch
        split at h
        · rename_i fc tc hfc htc
          rw [Option.some.injEq] at h
          subst h
          exact ⟨parseAmount_nonneg _, normalize_currency_mem hfc, normalize_currency_mem htc⟩
        · exact ih s orig r h
      · exact ih s orig r h

/-- C1 counterexample: the claim's formula reads the divisor from
`table[toCode].value` even when `fromCode = toCode = RUB`, but the code
divides by the literal `1.0` there.  On a table whose RUB entry has
value 2, the code returns `6 / 1` while the claim's formula demands
`6 / 2`. -/
theorem c1_counterexample :
    process_conversion 6 "RUB" "RUB"
        (RateTable.mk [("RUB", RateEntry.mk 2 1 1 100)] "d") = .ok ((6 : ℚ) / 1)
    ∧ alookup "RUB" (RateTable.mk [("RUB", RateEntry.mk 2 1 1 100)] "d").entries =
        some (RateEntry.mk 2 1 1 100)
    ∧ (6 : ℚ) / 1 ≠ 6 / (RateEntry.mk 2 1 1 100).value :=
  ⟨rfl, rfl, by norm_num⟩

/-- C1 (amended): provided the table's RUB entry, when present, has
value 1 (the RateTable invariant), `process_conversion` fails with
CurrencyNotFound iff either code is absent from the table's keys, and
otherwise returns exactly the claim's three-branch RUB-pivot result. -/
theorem c1_convert_rub_pivot (a : ℚ) (f g : String) (tab : RateTable)
    (hRUB : ∀ e, alookup "RUB" tab.entries = some e → e.value = 1) :
    ((∃ c, process_conversion a f g tab = .error (.currencyNotFound c)) ↔
      (alookup f tab.entries = none ∨ alookup g tab.entries = none))
    ∧ ∀ eF eT, alookup f tab.entries = some eF → alookup g tab.entries = some eT →
        process_conversion a f g tab =
          .ok (if f = "RUB" then a / eT.value
               else if g = "RUB" then a * eF.value
               else a * eF.value / eT.value) := by
  constructor
  · constructor
    · rintro ⟨c, hc⟩
      by_contra hcon
      push_neg at hcon
      obtain ⟨hf, hg⟩ := hcon
      obtain ⟨eF, hF⟩ := Option.ne_none_iff_exists'.mp hf
      obtain ⟨eT, hT⟩ := Option.ne_none_iff_exists'.mp hg
      rw [process_conversion_ok hF hT] at hc
      exact Except.noConfusion hc
    · rintro (hf | hg)
      · exact ⟨f, process_conversion_errLeft hf⟩
      · cases hF : alookup f tab.entries with
        | none => exact ⟨f, process_conversion_errLeft hF⟩
        | some eF => exact ⟨g, process_conversion_errRight hF hg⟩
  · intro eF eT hF hT
    rw [process_conversion_ok hF hT]
    by_cases hf : f = "RUB" <;> by_cases hg : g = "RUB"
    · subst hf; subst hg
      rw [hRUB eT hT]
      simp
    · simp [hf, hg]
    · simp [hf, hg]
    · simp [hf, hg]

/-- C1 witness: the amended theorem instantiated at `sampleTable`
(whose RUB entry has value 1) for `100 USD → GBP`. -/
theorem c1_convert_rub_pivot_witness :
    (∀ e, alookup "RUB" sampleTable.entries = some e → e.value = 1)
    ∧ (((∃ c, process_conversion 100 "USD" "GBP" sampleTable =
          .error (.currencyNotFound c)) ↔
        (alookup "USD" sampleTable.entries = none ∨
          alookup "GBP" sampleTable.entries = none))
      ∧ ∀ eF eT, alookup "USD" sampleTable.entries = some eF →
          alookup "GBP" sampleTable.entries = some eT →
          process_conversion 100 "USD" "GBP" sampleTable =
            .ok (if "USD" = "RUB" then 100 / eT.value
                 else if "GBP" = "RUB" then 100 * eF.value
                 else 100 * eF.value / eT.value)) := by
  have hRUB : ∀ e, alookup "RUB" sampleTable.entries = some e → e.value = 1 := by
    intro e h
    rw [show alookup "RUB" sampleTable.entries = some (RateEntry.mk 1 1 0 0) from rfl,
      Option.some.injEq] at h
    subst h
    rfl
  exact ⟨hRUB, c1_convert_rub_pivot 100 "USD" "GBP" sampleTable hRUB⟩

/-- C2: on a cache miss whose fetch fails (or whose payload parsing
raises), `_get_cbr_rates` does not raise: it returns the static mock
table — which carries the date string and all nine supported codes with
positive values — and the cache slot is left exactly as it was (the
fallback is never cached). -/
theorem c2_fallback (cache : Option CacheSlot) (now : ℚ) (fetch : FetchResult) (d : String)
    (hmiss : ∀ slot, cache = some slot → ¬(now - slot.time < cacheTimeout))
    (hfail : fetch = .failure ∨ ∃ p, fetch = .success p ∧ parseCbrPayload p = none) :
    (get_cbr_rates cache now fetch d).table = get_mock_rates d
    ∧ (get_cbr_rates cache now fetch d).cache = cache
    ∧ (get_mock_rates d).date = d
    ∧ ∀ c ∈ supportedCurrencies,
        ∃ e, alookup c (get_mock_rates d).entries = some e ∧ 0 < e.value := by
  have hfetch : fetchRates cache now fetch d = ⟨get_mock_rates d, cache, true⟩ := by
    rcases hfail with rfl | ⟨p, rfl, hp⟩
    · rfl
    · simp only [fetchRates, hp]
  have hg : get_cbr_rates cache now fetch d = ⟨get_mock_rates d, cache, true⟩ := by
    cases cache with
    | none => exact hfetch
    | some slot =>
        simp only [get_cbr_rates]
        rw [if_neg (hmiss slot rfl)]
        exact hfetch
  refine ⟨by rw [hg], by rw [hg], rfl, ?_⟩
  intro c hc
  simp only [supportedCurrencies, List.mem_cons, List.not_mem_nil, or_false] at hc
  rcases hc with rfl | rfl | rfl | rfl | rfl | rfl | rfl | rfl | rfl
  all_goals exact ⟨_, rfl, by norm_num⟩

/-- C2 witness: an empty cache and a failed fetch at time 0. -/
theorem c2_fallback_witness :
    (∀ slot, (none : Option CacheSlot) = some slot → ¬((0 : ℚ) - slot.time < cacheTimeout))
    ∧ (FetchResult.failure = .failure ∨
        ∃ p, FetchResult.failure = .success p ∧ parseCbrPayload p = none)
    ∧ ((get_cbr_rates none 0 .failure "2025-01-01").table = get_mock_rates "2025-01-01"
      ∧ (get_cbr_rates none 0 .failure "2025-01-01").cache = none
      ∧ (get_mock_rates "2025-01-01").date = "2025-01-01"
      ∧ ∀ c ∈ supportedCurrencies,
          ∃ e, alookup c (get_mock_rates "2025-01-01").entries = some e ∧ 0 < e.value) := by
  have hm : ∀ slot, (none : Option CacheSlot) = some slot →
      ¬((0 : ℚ) - slot.time < cacheTimeout) := by
    intro slot h
    cases h
  exact ⟨hm, Or.inl rfl, c2_fallback none 0 .failure "2025-01-01" hm (Or.inl rfl)⟩

/-- C3 counterexample: two calls 100 seconds apart where the first one
falls back (cache empty, fetch fails).  The fallback is not cached, so
the second call performs a network access — refuting the claim, which
demands no second network access for every pair of calls less than 300
seconds apart. -/
theorem c3_counterexample :
    (get_cbr_rates none 0 .failure "2025-01-01").cache = none
    ∧ (get_cbr_rates (get_cbr_rates none 0 .failure "2025-01-01").cache 100 .failure
        "2025-01-01").networkAccessed = true :=
  ⟨rfl, rfl⟩

/-- C3 (amended): if the first call performs a successful fetch-and-
parse (writing the cache at its call time) and the second call comes
less than `cacheTimeout = 300` seconds later, the second call returns
the identical table with no network access.  (A first call served from
an older cache entry or from the fallback gives no such guarantee: the
hit window is anchored at the cache-write time, and fallback results
are never cached.) -/
theorem c3_cache_hit (cache : Option CacheSlot) (now1 now2 : ℚ) (p : CbrPayload)
    (t : RateTable) (d1 d2 : String) (fetch2 : FetchResult)
    (hmiss : ∀ slot, cache = some slot → ¬(now1 - slot.time < cacheTimeout))
    (hparse : parseCbrPayload p = some t)
    (hwin : now2 - now1 < cacheTimeout) :
    (get_cbr_rates (get_cbr_rates cache now1 (.success p) d1).cache now2 fetch2 d2).table
      = (get_cbr_rates cache now1 (.success p) d1).table
    ∧ (get_cbr_rates (get_cbr_rates cache now1 (.success p) d1).cache now2 fetch2
        d2).networkAccessed = false
    ∧ (get_cbr_rates cache now1 (.success p) d1).table = t := by
  have h1 : get_cbr_rates cache now1 (.success p) d1 = ⟨t, some ⟨now1, t⟩, true⟩ := by
    have hfetch : fetchRates cache now1 (.success p) d1 = ⟨t, some ⟨now1, t⟩, true⟩ := by
      simp only [fetchRates, hparse]
    cases cache with
    | none => exact hfetch
    | some slot =>
        simp only [get_cbr_rates]
        rw [if_neg (hmiss slot rfl)]
        exact hfetch
  rw [h1]
  have h2 : get_cbr_rates (some ⟨now1, t⟩) now2 fetch2 d2 = ⟨t, some ⟨now1, t⟩, false⟩ := by
    unfold get_cbr_rates
    dsimp only
    rw [if_pos hwin]
  exact ⟨by rw [h2], by rw [h2], rfl⟩

/-- C3 witness: first call at time 0 fetches `samplePayload`
successfully; second call at time 100 hits the cache. -/
theorem c3_cache_hit_witness :
    parseCbrPayload samplePayload = some (RateTable.mk
      [("USD", RateEntry.mk 90 80 (90 - 80) ((90 - 80) / 80 * 100)), ("RUB", rubEntry)]
      "2025-01-01")
    ∧ ((100 : ℚ) - 0 < cacheTimeout)
    ∧ ((get_cbr_rates (get_cbr_rates none 0 (.success samplePayload) "a").cache 100 .failure
          "b").table = (get_cbr_rates none 0 (.success samplePayload) "a").table
      ∧ (get_cbr_rates (get_cbr_rates none 0 (.success samplePayload) "a").cache 100 .failure
          "b").networkAccessed = false
      ∧ (get_cbr_rates none 0 (.success samplePayload) "a").table = RateTable.mk
          [("USD", RateEntry.mk 90 80 (90 - 80) ((90 - 80) / 80 * 100)), ("RUB", rubEntry)]
          "2025-01-01") :=
  ⟨rfl, by norm_num [cacheTimeout],
    c3_cache_hit none 0 100 samplePayload _ "a" "b" .failure (fun slot h => by cases h) rfl
      (by norm_num [cacheTimeout])⟩

/-- C4: the round trip `convert(convert(a, A, B, T), B, A, T)` returns
`a` exactly (in exact rational arithmetic, hence a fortiori within the
2-decimal rounding tolerance) whenever both codes are present in the
table with positive values. -/
theorem c4_roundtrip (a : ℚ) (A B : String) (t : RateTable) (eA eB : RateEntry)
    (hA : alookup A t.entries = some eA) (hB : alookup B t.entries = some eB)
    (hpA : 0 < eA.value) (hpB : 0 < eB.value) :
    (process_conversion a A B t).bind (fun r => process_conversion r B A t) = .ok a := by
  rw [process_conversion_ok hA hB]
  show process_conversion _ B A t = .ok a
  rw [process_conversion_ok hB hA]
  rw [Except.ok.injEq]
  by_cases hA2 : A = "RUB"
  · by_cases hB2 : B = "RUB"
    · subst hA2
      subst hB2
      norm_num
    · subst hA2
      simp only [if_neg hB2, eq_self_iff_true, if_true, ite_true]
      exact div_mul_cancel₀ a hpB.ne'
  · by_cases hB2 : B = "RUB"
    · subst hB2
      simp only [if_neg hA2, eq_self_iff_true, if_true, ite_true]
      exact mul_div_cancel_right₀ a hpA.ne'
    · simp only [if_neg hA2, if_neg hB2]
      rw [div_mul_cancel₀ _ hpB.ne', mul_div_cancel_right₀ _ hpA.ne']

/-- C4 witness: round trip of 7 USD → RUB → USD over `sampleTable`. -/
theorem c4_roundtrip_witness :
    alookup "USD" sampleTable.entries = some (RateEntry.mk 90 80 10 (25 / 2))
    ∧ alookup "RUB" sampleTable.entries = some (RateEntry.mk 1 1 0 0)
    ∧ (0 : ℚ) < (RateEntry.mk 90 80 10 (25 / 2)).value
    ∧ (0 : ℚ) < (RateEntry.mk 1 1 0 0).value
    ∧ (process_conversion 7 "USD" "RUB" sampleTable).bind
        (fun r => process_conversion r "RUB" "USD" sampleTable) = .ok 7 :=
  ⟨rfl, rfl, by norm_num, by norm_num,
    c4_roundtrip 7 "USD" "RUB" sampleTable _ _ rfl rfl (by norm_num) (by norm_num)⟩

/-- C5 counterexample: the static fallback table's USD entry stores
`change_percent = -0.26`, while the invariant demands the exact value
`change / previous * 100 = -0.2127 / 80.9448 * 100 ≈ -0.2628`; so a
table returned by the fallback path violates the exact invariant. -/
theorem c5_counterexample :
    alookup "USD" (get_mock_rates "2025-01-01").entries =
      some (RateEntry.mk 80.7321 80.9448 (-0.2127) (-0.26))
    ∧ (RateEntry.mk 80.7321 80.9448 (-0.2127) (-0.26)).change_percent ≠
        (RateEntry.mk 80.7321 80.9448 (-0.2127) (-0.26)).change /
          (RateEntry.mk 80.7321 80.9448 (-0.2127) (-0.26)).previous * 100 :=
  ⟨rfl, by norm_num⟩

/-- C5 (amended): a table parsed from a payload whose entries have
positive `Value` and `Previous` satisfies the exact invariant (RUB
present with value 1, positive values, `change = value − previous`,
`change_percent = change / previous × 100`); the fallback table
satisfies it with `change` exact but `change_percent` only up to the
half-unit of its stored 2-decimal precision (`1/200`). -/
theorem c5_invariant :
    (∀ p t, parseCbrPayload p = some t →
      (∀ pr ∈ p.Valute, 0 < pr.2.Value ∧ 0 < pr.2.Previous) →
      (∃ e, alookup "RUB" t.entries = some e ∧ e.value = 1)
      ∧ ∀ pr ∈ t.entries, entryInvariant pr.2)
    ∧ ∀ d, (∃ e, alookup "RUB" (get_mock_rates d).entries = some e ∧ e.value = 1)
        ∧ ∀ pr ∈ (get_mock_rates d).entries, entryInvariantApprox pr.2 := by
  constructor
  · intro p t hp hpos
    unfold parseCbrPayload at hp
    cases hbr : buildRates p.Valute [] with
    | none =>
        rw [hbr] at hp
        exact absurd hp (by simp)
    | some rs =>
        rw [hbr, Option.some.injEq] at hp
        subst hp
        constructor
        · exact ⟨rubEntry, alookup_insertEntry_self _ _ _, rfl⟩
        · intro pr hpr
          rcases mem_insertEntry hpr with heq | hpr2
          · subst heq
            exact ⟨by norm_num [rubEntry], by norm_num [rubEntry], by norm_num [rubEntry],
              by norm_num [rubEntry]⟩
          · exact buildRates_sound _ _ _ hbr hpos (by simp) pr hpr2
  · intro d
    constructor
    · exact ⟨RateEntry.mk 1.0 1.0 0.0 0.0, rfl, by norm_num⟩
    · intro pr hpr
      simp only [get_mock_rates, List.mem_cons, List.not_mem_nil, or_false] at hpr
      rcases hpr with rfl | rfl | rfl | rfl | rfl | rfl | rfl | rfl | rfl
      all_goals exact ⟨by norm_num, by norm_num, by norm_num, by norm_num, by norm_num⟩

/-- C5 witness: the fetched-path invariant instantiated at
`samplePayload`. -/
theorem c5_invariant_witness :
    parseCbrPayload samplePayload = some (RateTable.mk
      [("USD", RateEntry.mk 90 80 (90 - 80) ((90 - 80) / 80 * 100)), ("RUB", rubEntry)]
      "2025-01-01")
    ∧ ((∃ e, alookup "RUB" (RateTable.mk
          [("USD", RateEntry.mk 90 80 (90 - 80) ((90 - 80) / 80 * 100)), ("RUB", rubEntry)]
          "2025-01-01").entries = some e ∧ e.value = 1)
      ∧ ∀ pr ∈ (RateTable.mk
          [("USD", RateEntry.mk 90 80 (90 - 80) ((90 - 80) / 80 * 100)), ("RUB", rubEntry)]
          "2025-01-01").entries, entryInvariant pr.2) := by
  refine ⟨rfl, c5_invariant.1 samplePayload _ rfl ?_⟩
  intro pr hpr
  simp only [samplePayload, List.mem_cons, List.not_mem_nil, or_false] at hpr
  rcases hpr with rfl
  exact ⟨by norm_num, by norm_num⟩

/-- C6: parsing the inflected Russian request yields the same
ConversionRequest as the USD→RUB special case: amount 500, USD → RUB. -/
theorem c6_parse_inflected :
    parse_conversion_request "500 долларов в рубли" =
      some (ConversionRequest.mk 500 "USD" "RUB" "500 долларов в рубли") := by
  decide

/-- C7: when a general pattern matches but either extracted token fails
normalization, the pattern is rejected and parsing continues with the
remaining patterns (it does not abort); in particular
`parse("10 XYZ to RUB")` returns NoMatch. -/
theorem c7_reject_and_continue :
    (∀ (pat : List Item) (rest : List (List Item)) (s : List Char) (orig : String)
      (a f t : String) (more : List String),
      searchFrom pat s = some (a :: f :: t :: more) →
      normalize_currency f = none ∨ normalize_currency t = none →
      tryGeneralPatterns (pat :: rest) s orig = tryGeneralPatterns rest s orig)
    ∧ parse_conversion_request "10 XYZ to RUB" = none := by
  constructor
  · intro pat rest s orig a f t more hsearch hfail
    rw [tryGeneralPatterns, hsearch]
    cases hf : normalize_currency f with
    | some fc =>
        cases ht : normalize_currency t with
        | some tc =>
            rcases hfail with h | h
            · rw [h] at hf
              exact absurd hf (by simp)
            · rw [h] at ht
              exact absurd ht (by simp)
        | none => simp [hf, ht]
    | none =>
        cases ht : normalize_currency t with
        | some tc => simp [hf, ht]
        | none => simp [hf, ht]
  · decide

/-- C7 witness: the first general pattern matches `"10 xyz to rub"`
with tokens `xyz`/`rub`, `xyz` fails normalization, and the pattern
list steps to its tail. -/
theorem c7_reject_and_continue_witness :
    searchFrom [Item.grpNum, Item.ws 0, Item.grpCls latinChar 3 (some 3), Item.ws 1,
        Item.alts ["to", "в", "->"], Item.ws 1, Item.grpCls latinChar 3 (some 3)]
      "10 xyz to rub".data = some ["10", "xyz", "rub"]
    ∧ normalize_currency "xyz" = none
    ∧ tryGeneralPatterns
        ([Item.grpNum, Item.ws 0, Item.grpCls latinChar 3 (some 3), Item.ws 1,
          Item.alts ["to", "в", "->"], Item.ws 1, Item.grpCls latinChar 3 (some 3)] ::
          [[Item.grpNum, Item.ws 0, Item.grpCls alnumTokenChar 2 none, Item.ws 1,
            Item.alts ["в", "to", "->"], Item.ws 1, Item.grpCls alnumTokenChar 2 none],
           [Item.alts ["конвертировать", "перевести"], Item.ws 1, Item.grpNum, Item.ws 1,
            Item.grpCls alnumTokenChar 2 none, Item.ws 1, Item.alts ["в", "to", "->"],
            Item.ws 1, Item.grpCls alnumTokenChar 2 none]])
        "10 xyz to rub".data "10 XYZ to RUB"
      = tryGeneralPatterns
          [[Item.grpNum, Item.ws 0, Item.grpCls alnumTokenChar 2 none, Item.ws 1,
            Item.alts ["в", "to", "->"], Item.ws 1, Item.grpCls alnumTokenChar 2 none],
           [Item.alts ["конвертировать", "перевести"], Item.ws 1, Item.grpNum, Item.ws 1,
            Item.grpCls alnumTokenChar 2 none, Item.ws 1, Item.alts ["в", "to", "->"],
            Item.ws 1, Item.grpCls alnumTokenChar 2 none]]
          "10 xyz to rub".data "10 XYZ to RUB" :=
  ⟨by decide, by decide,
    c7_reject_and_continue.1 _ _ _ _ "10" "xyz" "rub" [] (by decide) (Or.inl (by decide))⟩

/-- C8 counterexample: `"0 usd to rub"` parses to a request whose
amount is 0, which is not a positive decimal. -/
theorem c8_counterexample :
    parse_conversion_request "0 usd to rub" =
      some (ConversionRequest.mk 0 "USD" "RUB" "0 usd to rub")
    ∧ ¬((0 : ℚ) < (ConversionRequest.mk 0 "USD" "RUB" "0 usd to rub").amount) :=
  ⟨by decide, by decide⟩

/-- C8 (amended): every ConversionRequest produced by
`_parse_conversion_request` has a nonnegative amount (zero is
accepted), and its two codes are members of the supported nine-code
set, each exactly 3 uppercase letters. -/
theorem c8_request_invariant :
    ∀ (text : String) (r : ConversionRequest),
      parse_conversion_request text = some r →
      0 ≤ r.amount
      ∧ r.from_currency ∈ supportedCurrencies ∧ r.to_currency ∈ supportedCurrencies
      ∧ isUpper3 r.from_currency = true ∧ isUpper3 r.to_currency = true := by
  intro text r h
  have hcodes : ∀ c ∈ supportedCurrencies, isUpper3 c = true := by decide
  have main : 0 ≤ r.amount ∧ r.from_currency ∈ supportedCurrencies ∧
      r.to_currency ∈ supportedCurrencies := by
    rw [parse_conversion_request] at h
    split at h
    · rename_i r0 hs
      rw [Option.some.injEq] at h
      subst h
      exact trySpecialCases_sound _ _ _ _ hs (by decide)
    · exact tryGeneralPatterns_sound _ _ _ _ h
  exact ⟨main.1, main.2.1, main.2.2, hcodes _ main.2.1, hcodes _ main.2.2⟩

/-- C8 witness: the invariant evaluated on the parse of
`"100 USD to RUB"`. -/
theorem c8_request_invariant_witness :
    parse_conversion_request "100 USD to RUB" =
      some (ConversionRequest.mk 100 "USD" "RUB" "100 USD to RUB")
    ∧ (0 ≤ (ConversionRequest.mk 100 "USD" "RUB" "100 USD to RUB").amount
      ∧ (ConversionRequest.mk 100 "USD" "RUB" "100 USD to RUB").from_currency ∈
          supportedCurrencies
      ∧ (ConversionRequest.mk 100 "USD" "RUB" "100 USD to RUB").to_currency ∈
          supportedCurrencies
      ∧ isUpper3 (ConversionRequest.mk 100 "USD" "RUB" "100 USD to RUB").from_currency = true
      ∧ isUpper3 (ConversionRequest.mk 100 "USD" "RUB" "100 USD to RUB").to_currency = true) :=
  ⟨by decide, c8_request_invariant "100 USD to RUB"
    (ConversionRequest.mk 100 "USD" "RUB" "100 USD to RUB") (by decide)⟩

/-- C9 counterexample: on a payload whose USD entry has `Previous = 0`
but whose EUR entry is well-formed (value 100), the returned table is
the mock table — the EUR entry of the fetched payload is NOT produced
(the mock EUR value is 92.6047, not 100), refuting "the rest of the
fetched table is still produced and returned". -/
theorem c9_counterexample :
    (get_cbr_rates none 0 (.success zeroPrevPayload) "2025-09-09").table =
      get_mock_rates "2025-09-09"
    ∧ alookup "EUR"
        (get_cbr_rates none 0 (.success zeroPrevPayload) "2025-09-09").table.entries =
        some (RateEntry.mk 92.6047 93.7804 (-1.1757) (-1.25))
    ∧ (RateEntry.mk 92.6047 93.7804 (-1.1757) (-1.25)).value ≠ 100 :=
  ⟨rfl, rfl, by norm_num⟩

/-- C9 (amended): an entry with `Previous = 0` makes the rate-parsing
step raise (division by zero), which the blanket handler turns into the
fallback path: the whole fetched payload is dropped, `_get_cbr_rates`
returns the static mock table and leaves the cache untouched. -/
theorem c9_zero_previous (p : CbrPayload) (c : String) (vi : ValuteInfo)
    (hmem : (c, vi) ∈ p.Valute) (hzero : vi.Previous = 0)
    (cache : Option CacheSlot) (now : ℚ) (d : String)
    (hmiss : ∀ slot, cache = some slot → ¬(now - slot.time < cacheTimeout)) :
    parseCbrPayload p = none
    ∧ (get_cbr_rates cache now (.success p) d).table = get_mock_rates d
    ∧ (get_cbr_rates cache now (.success p) d).cache = cache := by
  have hp : parseCbrPayload p = none := by
    unfold parseCbrPayload
    rw [buildRates_zeroPrev p.Valute c vi hmem hzero []]
  have hfetch : fetchRates cache now (.success p) d = ⟨get_mock_rates d, cache, true⟩ := by
    simp only [fetchRates, hp]
  have hg : get_cbr_rates cache now (.success p) d = ⟨get_mock_rates d, cache, true⟩ := by
    cases cache with
    | none => exact hfetch
    | some slot =>
        simp only [get_cbr_rates]
        rw [if_neg (hmiss slot rfl)]
        exact hfetch
  exact ⟨hp, by rw [hg], by rw [hg]⟩

/-- C9 witness: the amended behavior evaluated on `zeroPrevPayload`
with an empty cache at time 5. -/
theorem c9_zero_previous_witness :
    ("USD", ValuteInfo.mk 90 0) ∈ zeroPrevPayload.Valute
    ∧ (ValuteInfo.mk 90 0).Previous = 0
    ∧ (parseCbrPayload zeroPrevPayload = none
      ∧ (get_cbr_rates none 5 (.success zeroPrevPayload) "2025-09-09").table =
          get_mock_rates "2025-09-09"
      ∧ (get_cbr_rates none 5 (.success zeroPrevPayload) "2025-09-09").cache = none) := by
  have hm : ∀ slot, (none : Option CacheSlot) = some slot →
      ¬((5 : ℚ) - slot.time < cacheTimeout) := by
    intro slot h
    cases h
  exact ⟨List.mem_cons_self _ _, rfl,
    c9_zero_previous zeroPrevPayload "USD" (ValuteInfo.mk 90 0) (List.mem_cons_self _ _) rfl
      none 5 "2025-09-09" hm⟩

/-- C10: for every supported code C, `normalize(C.lower()) = C`; every
key of the static map normalizes to its mapped code; and a token with
no direct map entry is upper-cased and accepted exactly when the result
is a member of the supported-code set, every other token yielding
NotFound. -/
theorem c10_normalize :
    (∀ c ∈ supportedCurrencies, normalize_currency (lowerString c) = some c)
    ∧ (∀ kv ∈ currencyMap, normalize_currency kv.1 = some kv.2)
    ∧ ∀ s : String, alookup (stripString (lowerString s)) currencyMap = none →
        normalize_currency s =
          (if upperString (stripString (lowerString s)) ∈ supportedCurrencies
           then some (upperString (stripString (lowerString s))) else none) := by
  refine ⟨by decide, by decide, ?_⟩
  intro s h
  unfold normalize_currency
  rw [h]

/-- C10 witness: the fall-through branch evaluated at the unsupported
token `"xyz"`. -/
theorem c10_normalize_witness :
    alookup (stripString (lowerString "xyz")) currencyMap = none
    ∧ normalize_currency "xyz" =
        (if upperString (stripString (lowerString "xyz")) ∈ supportedCurrencies
         then some (upperString (stripString (lowerString "xyz"))) else none) :=
  ⟨by decide, c10_normalize.2.2 "xyz" (by decide)⟩
